import Mathlib

/-!
Verification of the cross-fitting orthogonal-learning core (`econml/dml.py`)
against its specification.

The development shallowly embeds the source file:
* numpy arrays are modelled by `NArr` (a shape list plus row-major flat data
  over `ℚ`); the numpy operations the source uses (`np.eye`, `np.kron`,
  `reshape` with a `-1` entry, `transpose`, `hstack`, `np.ones`) are embedded
  below with their documented semantics;
* `sklearn.model_selection.KFold` (an external library dependency, with
  `shuffle=False`) is embedded by `kfoldTest`/`kfoldTrain`: the `j`-th test set
  is a contiguous block, the first `n % k` blocks of size `n / k + 1` and the
  remaining ones of size `n / k`, and the train set is the rest of the indices;
* caller-supplied estimators (nuisance models, the final model) are parameters:
  a first-stage model is a function from its training triple to a batch
  predictor, and the final model is an abstract fit/predict pair;
* Python exceptions are modelled by `Except FitErr`.
-/

/-- Errors surfaced by the embedded code paths: the row-count assertion in
`_RLearner.fit`, the `KFold` validation error, prediction before fit
(`AttributeError` on the unset `_d_t`), coefficient access on a final model
with no `coef_` (`AttributeError`), and the `defaultdict` factory-arity
`TypeError` in the kernel featurizer. -/
inductive FitErr where
  | shapeMismatch
  | invalidSplit
  | notFitted
  | unsupportedOp
  | typeError
deriving DecidableEq, Repr

/-- A numpy array: its shape and its row-major flattened data. -/
structure NArr where
  shape : List ℕ
  data : List ℚ
deriving DecidableEq, Repr

namespace NArr

/-- Well-formedness: the flat data has exactly as many entries as the shape
demands. -/
def wf (a : NArr) : Prop := a.data.length = a.shape.prod

instance (a : NArr) : Decidable a.wf := by unfold wf; infer_instance

/-- `np.shape(a)[0]`: the number of rows. -/
def rows (a : NArr) : ℕ := a.shape.headD 0

/-- The width of one "row" of the array: the product of all trailing
dimensions (1 for a 1-D array). -/
def rowWidth (a : NArr) : ℕ := (a.shape.drop 1).prod

/-- Entry `(i, j)` of a 2-D array (row-major). -/
def get2 (a : NArr) (i j : ℕ) : ℚ := a.data.getD (i * (a.shape.getD 1 1) + j) 0

/-- Entry `(i, j, l)` of a 3-D array (row-major). -/
def get3 (a : NArr) (i j l : ℕ) : ℚ :=
  a.data.getD (i * ((a.shape.getD 1 1) * (a.shape.getD 2 1)) + j * (a.shape.getD 2 1) + l) 0

/-- Row `r` of the array as a list (the `r`-th chunk of `rowWidth` entries of
the flat data). -/
def getRow (a : NArr) (r : ℕ) : List ℚ :=
  (List.range a.rowWidth).map fun c => a.data.getD (r * a.rowWidth + c) 0

/-- `np.ones((r, c))`. -/
def ones (r c : ℕ) : NArr := ⟨[r, c], (List.range (r * c)).map fun _ => 1⟩

/-- `np.eye(n)`. -/
def eye (n : ℕ) : NArr :=
  ⟨[n, n], (List.range (n * n)).map fun p => if p / n = p % n then 1 else 0⟩

/-- Resolve a numpy reshape specification (a list of dimensions in which a
single `-1` entry is inferred from the total number of entries). -/
def resolveShape (total : ℕ) (spec : List ℤ) : List ℕ :=
  let known : ℕ := spec.foldl (fun acc d => if 0 ≤ d then acc * d.toNat else acc) 1
  spec.map fun d => if d < 0 then total / known else d.toNat

/-- `np.reshape(a, spec)`: the flat data is unchanged, only the shape changes
(a `-1` entry is inferred). -/
def reshape (a : NArr) (spec : List ℤ) : NArr :=
  ⟨resolveShape a.data.length spec, a.data⟩

/-- `np.kron` of two 2-D arrays. -/
def kron (a b : NArr) : NArr :=
  let r1 := a.shape.getD 0 1; let c1 := a.shape.getD 1 1
  let r2 := b.shape.getD 0 1; let c2 := b.shape.getD 1 1
  ⟨[r1 * r2, c1 * c2],
    (List.range ((r1 * r2) * (c1 * c2))).map fun p =>
      let i := p / (c1 * c2); let j := p % (c1 * c2)
      a.get2 (i / r2) (j / c2) * b.get2 (i % r2) (j % c2)⟩

/-- `np.transpose(a, (0, 2, 1))` of a 3-D array. -/
def transpose021 (a : NArr) : NArr :=
  let d0 := a.shape.getD 0 1; let d1 := a.shape.getD 1 1; let d2 := a.shape.getD 2 1
  ⟨[d0, d2, d1],
    (List.range (d0 * (d2 * d1))).map fun p =>
      let i := p / (d2 * d1); let q := p % (d2 * d1)
      a.get3 i (q % d1) (q / d1)⟩

/-- `hstack([a, b])` for 2-D arrays: column-wise concatenation. -/
def hstack (a b : NArr) : NArr :=
  let n := a.shape.getD 0 1; let ca := a.shape.getD 1 1; let cb := b.shape.getD 1 1
  ⟨[n, ca + cb],
    (List.range (n * (ca + cb))).map fun p =>
      let i := p / (ca + cb); let c := p % (ca + cb)
      if c < ca then a.get2 i c else b.get2 i (c - ca)⟩

/-- The rows of an array as lists (a 1-D array has singleton rows). -/
def toRows (a : NArr) : List (List ℚ) := (List.range a.rows).map fun i => a.getRow i

end NArr

/-- Modelled from the spec: `econml.utilities.cross_product` (`utilities.py` is
not under `src/`). Row `i` of the result holds all pairwise products of row `i`
of the two arguments; the second argument's index varies slowly (column
`a * width₁ + b` holds `B[i,a] * A[i,b]`), the layout forced by the Kronecker
reconstruction in `FinalWrapper.predict`, which isolates treatment dimension
`j`'s coefficient block as columns `[j·f, (j+1)·f)`. -/
def cross_product (A B : NArr) : NArr :=
  let n := A.shape.getD 0 1; let ca := A.shape.getD 1 1; let cb := B.shape.getD 1 1
  ⟨[n, ca * cb],
    (List.range (n * (ca * cb))).map fun p =>
      let i := p / (ca * cb); let c := p % (ca * cb)
      B.get2 i (c / ca) * A.get2 i (c % ca)⟩

section Lemmas

/-- Evaluating the flat data of an array generated from a flat-index
function. -/
theorem rangeMap_getD {α : Type} (N : ℕ) (f : ℕ → α) (d : α) {p : ℕ} (hp : p < N) :
    ((List.range N).map f).getD p d = f p := by
  rw [List.getD_eq_getElem?_getD, List.getElem?_map, List.getElem?_range hp]
  rfl

theorem rangeMap_length {α : Type} (N : ℕ) (f : ℕ → α) :
    ((List.range N).map f).length = N := by simp

end Lemmas

/-! ### KFold (sklearn.model_selection.KFold, shuffle=False)

`_RLearner.fit` iterates `KFold(self._n_splits).split(X)`.  With the default
`shuffle=False` the test sets are contiguous blocks of indices: the first
`n % k` blocks have size `n / k + 1`, the rest size `n / k`; the train set of
a fold is every other index, in increasing order. -/

/-- The size of the `j`-th KFold test block for `n` samples and `k` splits. -/
def kfoldSize (n k j : ℕ) : ℕ := n / k + if j < n % k then 1 else 0

/-- The starting index of the `j`-th KFold test block. -/
def kfoldStart (n k j : ℕ) : ℕ := j * (n / k) + min j (n % k)

/-- The `j`-th KFold test index block. -/
def kfoldTest (n k j : ℕ) : List ℕ := List.range' (kfoldStart n k j) (kfoldSize n k j)

/-- The `j`-th KFold train index list: all indices outside the test block, in
increasing order. -/
def kfoldTrain (n k j : ℕ) : List ℕ :=
  (List.range n).filter fun i =>
    ¬(kfoldStart n k j ≤ i ∧ i < kfoldStart n k j + kfoldSize n k j)

/-- The `(train, test)` pairs yielded by `KFold(k).split` on `n` samples. -/
def kfoldFolds (n k : ℕ) : List (List ℕ × List ℕ) :=
  (List.range k).map fun j => (kfoldTrain n k j, kfoldTest n k j)

theorem kfoldStart_succ (n k j : ℕ) :
    kfoldStart n k (j + 1) = kfoldStart n k j + kfoldSize n k j := by
  unfold kfoldStart kfoldSize
  generalize n / k = q
  generalize n % k = r
  rcases lt_or_le j r with h | h
  · rw [min_eq_left h.le, min_eq_left h, if_pos h, Nat.succ_mul]
    omega
  · rw [min_eq_right h, min_eq_right (h.trans (Nat.le_succ j)), if_neg (not_lt.2 h),
      Nat.succ_mul]
    omega

theorem kfoldStart_k (n k : ℕ) (hk : 0 < k) : kfoldStart n k k = n := by
  unfold kfoldStart
  rw [min_eq_right (Nat.mod_lt n hk).le]
  exact Nat.div_add_mod n k

theorem kfoldStart_mono (n k : ℕ) : Monotone (kfoldStart n k) := by
  apply monotone_nat_of_le_succ
  intro j
  rw [kfoldStart_succ]
  exact Nat.le_add_right _ _

theorem mem_kfoldTest (n k j i : ℕ) :
    i ∈ kfoldTest n k j ↔ kfoldStart n k j ≤ i ∧ i < kfoldStart n k (j + 1) := by
  rw [kfoldTest, List.mem_range'_1, kfoldStart_succ]

theorem kfoldSize_pos (n k j : ℕ) (hk : 0 < k) (hkn : k ≤ n) : 0 < kfoldSize n k j := by
  unfold kfoldSize
  have : 0 < n / k := Nat.div_pos hkn hk
  omega

/-- Each index below `n` lies in some test block. -/
theorem kfold_cover (n k i : ℕ) (hk : 0 < k) (hi : i < n) :
    ∃ j, j < k ∧ i ∈ kfoldTest n k j := by
  have key : ∀ m, i < kfoldStart n k m → ∃ j, j < m ∧ i ∈ kfoldTest n k j := by
    intro m
    induction m with
    | zero => intro h; simp [kfoldStart] at h
    | succ m ih =>
      intro h
      rcases lt_or_le i (kfoldStart n k m) with h2 | h2
      · obtain ⟨j, hj, hmem⟩ := ih h2
        exact ⟨j, hj.trans (Nat.lt_succ_self m), hmem⟩
      · exact ⟨m, Nat.lt_succ_self m, (mem_kfoldTest n k m i).2 ⟨h2, h⟩⟩
  exact key k (by rw [kfoldStart_k n k hk]; exact hi)

/-- Distinct test blocks are disjoint. -/
theorem kfold_disjoint (n k : ℕ) {j1 j2 i : ℕ} (hne : j1 ≠ j2)
    (h1 : i ∈ kfoldTest n k j1) (h2 : i ∈ kfoldTest n k j2) : False := by
  rw [mem_kfoldTest] at h1 h2
  rcases Nat.lt_or_ge j1 j2 with h | h
  · have : kfoldStart n k (j1 + 1) ≤ kfoldStart n k j2 := kfoldStart_mono n k h
    omega
  · have hlt : j2 < j1 := lt_of_le_of_ne h (Ne.symm hne)
    have : kfoldStart n k (j2 + 1) ≤ kfoldStart n k j1 := kfoldStart_mono n k hlt
    omega

/-- Test indices are below `n`. -/
theorem kfoldTest_lt (n k j i : ℕ) (hj : j < k) (hk : 0 < k)
    (h : i ∈ kfoldTest n k j) : i < n := by
  rw [mem_kfoldTest] at h
  have : kfoldStart n k (j + 1) ≤ kfoldStart n k k := kfoldStart_mono n k hj
  rw [kfoldStart_k n k hk] at this
  omega

theorem mem_kfoldTrain (n k j i : ℕ) :
    i ∈ kfoldTrain n k j ↔ i < n ∧ ¬ i ∈ kfoldTest n k j := by
  rw [kfoldTrain, List.mem_filter, List.mem_range, mem_kfoldTest, kfoldStart_succ]
  simp only [decide_not, Bool.not_eq_true', decide_eq_false_iff_not]


/-! ### The cross-fitting loop of `_RLearner.fit`

Rows of the numpy arrays are modelled as `List ℚ`.  `select` is numpy fancy
indexing (`A[idxs]`), `scatter` is fancy-indexed assignment
(`A[idxs] = vals`), and `rowSub` is elementwise subtraction of two rows. -/

/-- Fancy indexing `A[idxs]`. -/
def select {α : Type} [Inhabited α] (idxs : List ℕ) (A : List α) : List α :=
  idxs.map fun i => A.getD i default

/-- Fancy assignment `dest[idxs] = vals` (numpy requires the lengths to
agree; extra indices or values are ignored). -/
def scatter {α : Type} : List α → List ℕ → List α → List α
  | dest, [], _ => dest
  | dest, _, [] => dest
  | dest, i :: is2, v :: vs => scatter (dest.set i v) is2 vs

/-- Elementwise subtraction of two rows (`T_test - prediction`). -/
def rowSub (a b : List ℚ) : List ℚ := List.zipWith (fun x y => x - y) a b

/-- A caller-supplied first-stage estimator at the `_RLearner` interface:
`fit(X_train, W_train, target)` produces the fitted state, used here as a
batch predictor `predict(X_test, W_test)`.  Each fold fits a fresh clone, so
the fitted predictor is a pure function of the training data. -/
structure FSModel where
  fit : List (List ℚ) → List (List ℚ) → List (List ℚ) →
    (List (List ℚ) → List (List ℚ) → List (List ℚ))

/-- One iteration of the `for idx, (train_idxs, test_idxs) in enumerate(...)`
loop of `_RLearner.fit`, for one nuisance target: fit the fold's model on the
training rows and write `target_test - prediction` into the residual array at
the test positions. -/
def foldStep (m : FSModel) (A X W : List (List ℚ)) (acc : List (List ℚ))
    (fold : List ℕ × List ℕ) : List (List ℚ) :=
  let tr := fold.1
  let te := fold.2
  let predictor := m.fit (select tr X) (select tr W) (select tr A)
  scatter acc te (List.zipWith rowSub (select te A) (predictor (select te X) (select te W)))

/-- The residual array produced by the cross-fitting loop of `_RLearner.fit`
for one nuisance target (the source interleaves the treatment and outcome
targets in one loop; the two targets share no state, so each target's
residual array is this fold). -/
def foldResiduals (m : FSModel) (folds : List (List ℕ × List ℕ))
    (A X W init : List (List ℚ)) : List (List ℚ) :=
  folds.foldl (foldStep m A X W) init

theorem scatter_length {α : Type} (dest : List α) (idxs : List ℕ) (vals : List α) :
    (scatter dest idxs vals).length = dest.length := by
  induction idxs generalizing dest vals with
  | nil => cases vals <;> rfl
  | cons i0 is2 ih =>
    cases vals with
    | nil => rfl
    | cons v vs => rw [scatter, ih, List.length_set]

theorem scatter_getD_not_mem {α : Type} (dest : List α) (idxs : List ℕ)
    (vals : List α) (d : α) {i : ℕ} (h : i ∉ idxs) :
    (scatter dest idxs vals).getD i d = dest.getD i d := by
  induction idxs generalizing dest vals with
  | nil => cases vals <;> rfl
  | cons i0 is2 ih =>
    cases vals with
    | nil => rfl
    | cons v vs =>
      rw [scatter, ih _ _ (fun hm => h (List.mem_cons_of_mem _ hm)),
        List.getD_eq_getElem?_getD, List.getD_eq_getElem?_getD,
        List.getElem?_set_ne
          (fun he => h (by rw [← he]; exact List.mem_cons_self i0 is2))]

theorem scatter_getD_mem {α : Type} (dest : List α) (idxs : List ℕ)
    (vals : List α) (d : α) (hnd : idxs.Nodup) {p : ℕ} (hp : p < idxs.length)
    (hv : p < vals.length) (hi : idxs.getD p 0 < dest.length) :
    (scatter dest idxs vals).getD (idxs.getD p 0) d = vals.getD p d := by
  induction idxs generalizing dest vals p with
  | nil => simp at hp
  | cons i0 is2 ih =>
    cases vals with
    | nil => simp at hv
    | cons v vs =>
      rw [scatter]
      cases p with
      | zero =>
        have hni : i0 ∉ is2 := (List.nodup_cons.1 hnd).1
        simp only [List.getD_cons_zero] at hi ⊢
        rw [scatter_getD_not_mem _ _ _ _ hni, List.getD_eq_getElem?_getD,
          List.getElem?_set]
        simp [hi]
      | succ p =>
        simp only [List.getD_cons_succ] at hi ⊢
        exact ih (dest.set i0 v) vs (List.nodup_cons.1 hnd).2
          (by simpa using hp) (by simpa using hv) (by simpa using hi)

theorem select_length {α : Type} [Inhabited α] (idxs : List ℕ) (A : List α) :
    (select idxs A).length = idxs.length := by simp [select]

theorem select_getD {α : Type} [Inhabited α] (idxs : List ℕ) (A : List α) {p : ℕ}
    (hp : p < idxs.length) (d : α) :
    (select idxs A).getD p d = A.getD (idxs.getD p 0) default := by
  have hidx : idxs.getD p 0 = idxs[p] := by
    rw [List.getD_eq_getElem?_getD, List.getElem?_eq_getElem hp]
    rfl
  rw [hidx, select, List.getD_eq_getElem?_getD, List.getElem?_map,
    List.getElem?_eq_getElem hp]
  rfl

theorem zipWith_getD {α β γ : Type} (f : α → β → γ) (a : List α) (b : List β)
    {p : ℕ} (h1 : p < a.length) (h2 : p < b.length) (d : γ) (da : α) (db : β) :
    (List.zipWith f a b).getD p d = f (a.getD p da) (b.getD p db) := by
  rw [List.getD_eq_getElem?_getD, List.getElem?_zipWith,
    List.getElem?_eq_getElem h1, List.getElem?_eq_getElem h2,
    List.getD_eq_getElem?_getD, List.getD_eq_getElem?_getD,
    List.getElem?_eq_getElem h1, List.getElem?_eq_getElem h2]
  rfl

theorem foldResiduals_length (m : FSModel) (folds : List (List ℕ × List ℕ))
    (A X W init : List (List ℚ)) :
    (foldResiduals m folds A X W init).length = init.length := by
  induction folds generalizing init with
  | nil => rfl
  | cons f fs ih =>
    simp only [foldResiduals, List.foldl_cons] at ih ⊢
    rw [ih, foldStep, scatter_length]

theorem foldResiduals_getD_not_mem (m : FSModel) (folds : List (List ℕ × List ℕ))
    (A X W init : List (List ℚ)) {i : ℕ} (h : ∀ f ∈ folds, i ∉ f.2) :
    (foldResiduals m folds A X W init).getD i [] = init.getD i [] := by
  induction folds generalizing init with
  | nil => rfl
  | cons f fs ih =>
    simp only [foldResiduals, List.foldl_cons] at ih ⊢
    rw [ih _ (fun g hg => h g (List.mem_cons_of_mem _ hg)), foldStep,
      scatter_getD_not_mem _ _ _ _ (h f (List.mem_cons_self _ _))]

theorem range_split (k j : ℕ) (hj : j < k) :
    List.range k = List.range' 0 j ++ j :: List.range' (j + 1) (k - (j + 1)) := by
  have h1 : List.range' 0 j 1 ++ List.range' (0 + 1 * j) (k - j) 1 =
      List.range' 0 ((k - j) + j) 1 := List.range'_append 0 j (k - j) 1
  have h2 : (0 + 1 * j) = j := by omega
  have h3 : (k - j) + j = k := by omega
  rw [h2, h3] at h1
  have h4 : List.range' j (k - j) = j :: List.range' (j + 1) (k - (j + 1)) := by
    have h5 : k - j = (k - (j + 1)) + 1 := by omega
    rw [h5, List.range'_succ]
  rw [List.range_eq_range', ← h1, h4]

/-- The heart of the out-of-fold property: inside `_RLearner.fit`, the residual
array entry of a sample `i` lying in test fold `j` is the value written while
processing fold `j`: the sample's own row minus the prediction, for `i`'s
position within its test block, of the model fitted on fold `j`'s training
rows. -/
theorem foldResiduals_kfold (m : FSModel) (n k : ℕ) (hk : 0 < k)
    (A X W init : List (List ℚ)) (hinit : init.length = n)
    (hm : ∀ a b c x w, ((m.fit a b c) x w).length = x.length)
    {i j : ℕ} (hj : j < k) (hmem : i ∈ kfoldTest n k j) :
    (foldResiduals m (kfoldFolds n k) A X W init).getD i [] =
      rowSub (A.getD i [])
        ((m.fit (select (kfoldTrain n k j) X) (select (kfoldTrain n k j) W)
            (select (kfoldTrain n k j) A)
          (select (kfoldTest n k j) X) (select (kfoldTest n k j) W)).getD
          (i - kfoldStart n k j) []) := by
  have hi : i < n := kfoldTest_lt n k j i hj hk hmem
  have hse := (mem_kfoldTest n k j i).1 hmem
  rw [kfoldStart_succ] at hse
  have hp : i - kfoldStart n k j < kfoldSize n k j := by omega
  have hsplit : kfoldFolds n k =
      ((List.range' 0 j).map fun j2 => (kfoldTrain n k j2, kfoldTest n k j2)) ++
      ((kfoldTrain n k j, kfoldTest n k j) ::
       ((List.range' (j + 1) (k - (j + 1))).map fun j2 =>
         (kfoldTrain n k j2, kfoldTest n k j2))) := by
    rw [kfoldFolds, range_split k j hj, List.map_append, List.map_cons]
  rw [foldResiduals, hsplit, List.foldl_append, List.foldl_cons]
  rw [show ∀ fs acc, List.foldl (foldStep m A X W) acc fs = foldResiduals m fs A X W acc
    from fun _ _ => rfl]
  rw [show ∀ fs acc, List.foldl (foldStep m A X W) acc fs = foldResiduals m fs A X W acc
    from fun _ _ => rfl]
  have hafter : ∀ f ∈ (List.range' (j + 1) (k - (j + 1))).map
      (fun j2 => (kfoldTrain n k j2, kfoldTest n k j2)), i ∉ f.2 := by
    intro f hf hmem2
    obtain ⟨j2, hj2, rfl⟩ := List.mem_map.1 hf
    have hne : j ≠ j2 := by
      have := List.mem_range'_1.1 hj2
      omega
    exact kfold_disjoint n k hne hmem hmem2
  rw [foldResiduals_getD_not_mem _ _ _ _ _ _ hafter]
  have hacc : (foldResiduals m
      ((List.range' 0 j).map fun j2 => (kfoldTrain n k j2, kfoldTest n k j2))
      A X W init).length = n := by rw [foldResiduals_length, hinit]
  rw [foldStep]
  have hidx : (kfoldTest n k j).getD (i - kfoldStart n k j) 0 = i := by
    rw [kfoldTest, List.getD_eq_getElem?_getD, List.getElem?_range' _ _ hp]
    simp only [Option.getD_some]
    omega
  have hlen1 : (select (kfoldTest n k j) A).length = kfoldSize n k j := by
    rw [select_length, kfoldTest, List.length_range']
  have hlen2 : ((m.fit (select (kfoldTrain n k j) X) (select (kfoldTrain n k j) W)
      (select (kfoldTrain n k j) A))
      (select (kfoldTest n k j) X) (select (kfoldTest n k j) W)).length =
      kfoldSize n k j := by
    rw [hm, select_length, kfoldTest, List.length_range']
  conv_lhs => rw [← hidx]
  rw [scatter_getD_mem _ _ _ _ (by rw [kfoldTest]; exact List.nodup_range' _ _)
      (by rw [kfoldTest, List.length_range']; exact hp)
      (by rw [List.length_zipWith, hlen1, hlen2]; simp [hp])
      (by rw [hidx, hacc]; exact hi)]
  rw [zipWith_getD _ _ _ (by rw [hlen1]; exact hp) (by rw [hlen2]; exact hp) _ [] [],
    select_getD _ _ (by rw [kfoldTest, List.length_range']; exact hp), hidx]
  rfl

/-! ### FinalWrapper (`econml/dml.py` lines 164-191)

The wrapped final model is a caller-supplied estimator; its `fit` is a
function `innerFit` from the design matrix and target to a fitted state `χ`,
and its `predict` a function `innerPred` of that state. -/

/-- The attributes `FinalWrapper.fit` stores on `self`: the trailing shapes
`_d_t = shape(T_res)[1:]` and `_d_y = shape(Y_res)[1:]`, plus the fitted
wrapped model. -/
structure FinalFitted (χ : Type) where
  d_t : List ℕ
  d_y : List ℕ
  inner : χ

/-- `FinalWrapper.fit`: record the trailing residual shapes and fit the
wrapped model on `cross_product(featurizer.fit_transform(X), T_res)` against
`Y_res`. -/
def FinalWrapper.fit {χ : Type} (featurize : NArr → NArr) (innerFit : NArr → NArr → χ)
    (X Tres Yres : NArr) : FinalFitted χ :=
  ⟨Tres.shape.drop 1, Yres.shape.drop 1,
    innerFit (cross_product (featurize X) Tres) Yres⟩

/-- The synthetic design matrix built inside `FinalWrapper.predict`:
`eye = np.eye(d_t[0])` (or `np.array([1])` when T was a vector),
`flat_eye = reshape(eye, (1, -1))`, then
`reshape(np.kron(flat_eye, F), ((d_t[0] if d_t else 1) * m, -1))` where `F`
is the featurized query matrix and `m = shape(X)[0]`. -/
def FinalWrapper.designXT (d_t : List ℕ) (F : NArr) (mX : ℕ) : NArr :=
  let eye := match d_t with
    | [] => NArr.mk [1] [1]
    | dt :: _ => NArr.eye dt
  let flat_eye := eye.reshape [1, -1]
  (NArr.kron flat_eye F).reshape [((d_t.headD 1 * mX : ℕ) : ℤ), -1]

/-- The body of `FinalWrapper.predict` given the featurized query matrix `F`
and the raw query row count `mX`: predict on the synthetic design, reshape to
`(-1,) + d_t + d_y`, and transpose the last two axes when both are
non-trivial. -/
def FinalWrapper.predictCore (innerPred : NArr → NArr) (d_t d_y : List ℕ)
    (F : NArr) (mX : ℕ) : NArr :=
  let effects := (innerPred (FinalWrapper.designXT d_t F mX)).reshape
    ([-1] ++ d_t.map (fun d : ℕ => (d : ℤ)) ++ d_y.map (fun d : ℕ => (d : ℤ)))
  if d_t ≠ [] ∧ d_y ≠ [] then effects.transpose021 else effects

/-- `FinalWrapper.predict` with a pure featurizer. -/
def FinalWrapper.predict {χ : Type} (featurize : NArr → NArr)
    (innerPred : χ → NArr → NArr) (st : FinalFitted χ) (X : NArr) : NArr :=
  FinalWrapper.predictCore (innerPred st.inner) st.d_t st.d_y (featurize X) X.rows

/-- `FinalWrapper.coef_`: `reshape(model_final.coef_, d_y + d_t + (-1,))`.
When the wrapped model exposes no `coef_` attribute the access raises
(modelled as the unsupported-operation error). -/
def FinalWrapper.coef_ {χ : Type} (innerCoef : χ → Option NArr)
    (st : FinalFitted χ) : Except FitErr NArr :=
  match innerCoef st.inner with
  | none => .error .unsupportedOp
  | some c => .ok (c.reshape ((st.d_y ++ st.d_t).map (fun d : ℕ => (d : ℤ)) ++ [-1]))

/-- `_DMLCateEstimatorBase.coef_` delegates to the final wrapper's `coef_`. -/
def DMLCateEstimatorBase.coef_ {χ : Type} (innerCoef : χ → Option NArr)
    (st : FinalFitted χ) : Except FitErr NArr :=
  FinalWrapper.coef_ innerCoef st

/-! ### The `_RLearner` orchestrator (`econml/dml.py` lines 49-102) -/

/-- The final-model interface at the `_RLearner` level: `fit(X, t_res, y_res)`
produces the trained state, `predict(X)` the effect tensor. -/
structure FinalModel (φ : Type) where
  fit : NArr → NArr → NArr → φ
  predict : φ → NArr → NArr

/-- `np.zeros(shape(A))`, as rows. -/
def zerosRowsOf (A : NArr) : List (List ℚ) :=
  (List.range A.rows).map fun _ => List.replicate A.rowWidth 0

/-- `_RLearner.fit(Y, T, X=None, W=None)`: default `X` to a column of ones
and `W` to an empty-column matrix, assert equal row counts, construct the
`KFold(k)` splitter (which raises for fewer than 2 splits or more splits than
samples), run the cross-fitting loop for both nuisance targets, and fit the
final model on `(X, t_res, y_res)`.  Both failure paths occur before any
nuisance or final model is consulted, so the result on those paths does not
depend on `mt`, `my` or `mf`. -/
def RLearner.fit {φ : Type} (mt my : FSModel) (mf : FinalModel φ) (k : ℕ)
    (Y T : NArr) (Xopt Wopt : Option NArr) : Except FitErr φ :=
  let n := Y.rows
  let X := Xopt.getD (NArr.ones n 1)
  let W := Wopt.getD (NArr.mk [n, 0] [])
  if ¬(Y.rows = T.rows ∧ T.rows = X.rows ∧ X.rows = W.rows) then
    .error .shapeMismatch
  else if k < 2 ∨ n < k then
    .error .invalidSplit
  else
    let tResRows :=
      foldResiduals mt (kfoldFolds n k) T.toRows X.toRows W.toRows (zerosRowsOf T)
    let yResRows :=
      foldResiduals my (kfoldFolds n k) Y.toRows X.toRows W.toRows (zerosRowsOf Y)
    .ok (mf.fit X (NArr.mk T.shape tResRows.flatten) (NArr.mk Y.shape yResRows.flatten))

/-- `_RLearner.const_marginal_effect(X=None)`: before a successful `fit` the
trained state is absent and prediction fails; afterwards it delegates to the
final model's `predict` on `X` (defaulted to `np.ones((1, 1))`). -/
def RLearner.const_marginal_effect {φ : Type} (mf : FinalModel φ) (st : Option φ)
    (Xopt : Option NArr) : Except FitErr NArr :=
  match st with
  | none => .error .notFitted
  | some f => .ok (mf.predict f (Xopt.getD (NArr.ones 1 1)))

/-! ### FirstStageWrapper and the estimator wiring (`econml/dml.py` 134-288) -/

/-- A `FirstStageWrapper` instance records the flag passed at construction. -/
structure FirstStageWrapper where
  is_Y : Bool

/-- `FirstStageWrapper._combine(X, W)`: in the sparse outcome case, the
cross product of `[X, W]` with `[ones, featurizer.fit_transform(X), W]`;
otherwise `featurizer.fit_transform(X)` concatenated with `W`. -/
def FirstStageWrapper.combine (sparseLinear : Bool) (featurize : NArr → NArr)
    (w : FirstStageWrapper) (X W : NArr) : NArr :=
  if w.is_Y && sparseLinear then
    let XW := NArr.hstack X W
    let F := featurize X
    cross_product XW (NArr.hstack (NArr.hstack (NArr.ones XW.rows 1) F) W)
  else
    NArr.hstack (featurize X) W

/-- The wiring `_DMLCateEstimatorBase.__init__` performs: the outcome wrapper
is built with `is_Y=True`, the treatment wrapper with `is_Y=False`, and the
`sparseLinear` flag is captured by both wrappers' `_combine`. -/
structure DMLWiring where
  sparseLinear : Bool
  model_y : FirstStageWrapper
  model_t : FirstStageWrapper

def DMLCateEstimatorBase.init (sparseLinear : Bool) : DMLWiring :=
  ⟨sparseLinear, ⟨true⟩, ⟨false⟩⟩

/-- `DMLCateEstimator.__init__` passes `sparseLinear=False`. -/
def DMLCateEstimator.init : DMLWiring := DMLCateEstimatorBase.init false

/-- `SparseLinearDMLCateEstimator.__init__` passes `sparseLinear=True`. -/
def SparseLinearDMLCateEstimator.init : DMLWiring := DMLCateEstimatorBase.init true

/-! ### The kernel featurizer (`econml/dml.py` lines 320-330) -/

/-- A Python callable together with its arity. -/
inductive PyFun (π : Type) where
  | arity0 (f : Unit → π)
  | arity1 (f : ℕ → π)

/-- `collections.defaultdict`: a lookup table plus a default factory.  On a
missing key, `__missing__` invokes the factory with ZERO arguments; a factory
expecting one argument raises `TypeError`. -/
structure DefaultDict (π : Type) where
  table : List (ℕ × π)
  factory : PyFun π

def DefaultDict.getItem {π : Type} (d : DefaultDict π) (key : ℕ) :
    Except FitErr (DefaultDict π × π) :=
  match d.table.lookup key with
  | some v => .ok (d, v)
  | none =>
    match d.factory with
    | .arity0 f => .ok ({ d with table := (key, f ()) :: d.table }, f ())
    | .arity1 _ => .error .typeError

/-- The `RandomFeatures` state constructed by `KernelDMLCateEstimator.__init__`:
`omegas` and `biases` are `defaultdict(lambda d_x: ...)` — default factories
of arity ONE (`drawOmega`/`drawBias` stand for the random draws at a given
input width). -/
structure RandomFeatures where
  omegas : DefaultDict NArr
  biases : DefaultDict NArr

def RandomFeatures.init (drawOmega drawBias : ℕ → NArr) : RandomFeatures :=
  ⟨⟨[], .arity1 drawOmega⟩, ⟨[], .arity1 drawBias⟩⟩

/-- `RandomFeatures.fit_transform(X)`: look up `omegas[shape(X)[1]]` and
`biases[shape(X)[1]]`, then return the featurized matrix.  The numeric map
`sqrt(2 / dim) * np.cos(np.matmul(X, omegas) + biases)` involves irrational
functions of external numpy routines and is abstracted as `featureMap`. -/
def RandomFeatures.fit_transform (featureMap : NArr → NArr → NArr → NArr)
    (rf : RandomFeatures) (X : NArr) : Except FitErr (RandomFeatures × NArr) := do
  let w := X.shape.getD 1 1
  let p1 ← rf.omegas.getItem w
  let p2 ← rf.biases.getItem w
  .ok (⟨p1.1, p2.1⟩, featureMap X p1.2 p2.2)

/-! ### Stateful featurizer view (for the predict-idempotence property)

Python's `fit_transform` may mutate the featurizer object (the kernel
featurizer caches drawn parameters), so for state-mutation properties the
featurizer is a state transition and `predict` threads its state. -/

/-- A possibly stateful featurizer. -/
structure Featurizer (σ : Type) where
  fit_transform : σ → NArr → σ × NArr

/-- `FinalWrapper.predict` with the featurizer's state threaded explicitly:
`featurizer.fit_transform(X)` is the only featurizer interaction in the body,
and the trained attributes `_d_t`, `_d_y` and the wrapped model are
read-only. -/
def FinalWrapper.predictS {σ χ : Type} (feat : Featurizer σ)
    (innerPred : χ → NArr → NArr) (st : FinalFitted χ) (s : σ) (X : NArr) :
    σ × NArr :=
  let p := feat.fit_transform s X
  (p.1, FinalWrapper.predictCore (innerPred st.inner) st.d_t st.d_y p.2 X.rows)

/-- `_RLearner.const_marginal_effect` with featurizer state threaded. -/
def RLearner.const_marginal_effectS {σ χ : Type} (feat : Featurizer σ)
    (innerPred : χ → NArr → NArr) (st : Option (FinalFitted χ)) (s : σ)
    (Xopt : Option NArr) : Except FitErr (σ × NArr) :=
  match st with
  | none => .error .notFitted
  | some f => .ok (FinalWrapper.predictS feat innerPred f s (Xopt.getD (NArr.ones 1 1)))

/-- Modelled from the spec: the naive synthetic design row for query sample
`i` and treatment dimension `j` — row `i` of the featurized query matrix `F`
(of width `f`) placed in treatment dimension `j`'s coefficient block (columns
`[j·f, (j+1)·f)`), all other blocks zero. -/
def naiveDesignRow (F : NArr) (dt f i j : ℕ) : List ℚ :=
  (List.range (dt * f)).map fun c => if c / f = j then F.get2 i (c % f) else 0

/-- The unit treatment-residual row vector `e_j` (length `dt`), as a 1-row
matrix. -/
def unitRow (dt j : ℕ) : NArr :=
  ⟨[1, dt], (List.range dt).map fun t => if t = j then 1 else 0⟩

/-! ### Resolving the reshape specifications used by the source -/

theorem resolveFold_nats (ds : List ℕ) (a : ℕ) :
    List.foldl (fun acc d => if 0 ≤ d then acc * d.toNat else acc) a
      (ds.map fun d : ℕ => (d : ℤ)) = a * ds.prod := by
  induction ds generalizing a with
  | nil => simp
  | cons d ds ih =>
    simp only [List.map_cons, List.foldl_cons, List.prod_cons,
      if_pos (Int.natCast_nonneg d), Int.toNat_natCast, ih]
    ring

/-- Every reshape in the source has the form `dims₁ ++ (-1,) ++ dims₂` with
known natural dimensions around a single inferred entry; when the data size is
an exact multiple, the inferred entry is that multiple. -/
theorem resolveShape_concat (total : ℕ) (pre post : List ℕ) (q : ℕ)
    (hpos : 0 < pre.prod * post.prod)
    (htot : total = (pre.prod * post.prod) * q) :
    NArr.resolveShape total
      ((pre.map fun d : ℕ => (d : ℤ)) ++ -1 :: (post.map fun d : ℕ => (d : ℤ))) =
      pre ++ q :: post := by
  simp only [NArr.resolveShape]
  have hknown : List.foldl (fun acc d => if 0 ≤ d then acc * d.toNat else acc) 1
      ((pre.map fun d : ℕ => (d : ℤ)) ++ -1 :: (post.map fun d : ℕ => (d : ℤ))) =
      pre.prod * post.prod := by
    rw [List.foldl_append, resolveFold_nats, List.foldl_cons,
      if_neg (by norm_num), resolveFold_nats, one_mul]
  rw [hknown]
  have hnat : ∀ ds : List ℕ, (ds.map fun d : ℕ => (d : ℤ)).map
      (fun d => if d < 0 then total / (pre.prod * post.prod) else d.toNat) = ds := by
    intro ds
    induction ds with
    | nil => rfl
    | cons d ds ih =>
      simp only [List.map_cons, ih, if_neg (not_lt.2 (Int.natCast_nonneg d)),
        Int.toNat_natCast]
  rw [List.map_append, List.map_cons, hnat, hnat, if_pos (by norm_num), htot,
    Nat.mul_div_cancel_left _ hpos]

/-! ### Helper instances for witnesses -/

/-- A trivial first-stage model: the fitted predictor echoes its feature
input (one prediction per test row). -/
def echoFS : FSModel := ⟨fun _ _ _ => fun x _ => x⟩

/-- A trivial final model over a unit state. -/
def unitFinal : FinalModel Unit := ⟨fun _ _ _ => (), fun _ _ => NArr.mk [] []⟩

/-! ### Claim theorems -/

/-- C5: for every `n` and `k` with `0 < k ≤ n`, the `k` test-index sets
produced by the splitter used in `fit` partition `{0..n-1}` exactly: they are
pairwise disjoint, each is non-empty, and an index is below `n` exactly when
it lies in some test set (so every sample belongs to exactly one test
fold). -/
theorem kfold_test_sets_partition (n k : ℕ) (hk : 0 < k) (hkn : k ≤ n) :
    (∀ j1 j2, j1 < k → j2 < k → j1 ≠ j2 →
      ∀ i, i ∈ kfoldTest n k j1 → i ∉ kfoldTest n k j2) ∧
    (∀ j, j < k → kfoldTest n k j ≠ []) ∧
    (∀ i, i < n ↔ ∃ j, j < k ∧ i ∈ kfoldTest n k j) := by
  refine ⟨?_, ?_, ?_⟩
  · intro j1 j2 _ _ hne i hi1 hi2
    exact kfold_disjoint n k hne hi1 hi2
  · intro j _ he
    have h1 := kfoldSize_pos n k j hk hkn
    have h2 : (List.range' (kfoldStart n k j) (kfoldSize n k j)).length = 0 := by
      rw [show List.range' (kfoldStart n k j) (kfoldSize n k j) = kfoldTest n k j from rfl,
        he]
      rfl
    rw [List.length_range'] at h2
    omega
  · intro i
    constructor
    · exact fun hi => kfold_cover n k i hk hi
    · rintro ⟨j, hj, hmem⟩
      exact kfoldTest_lt n k j i hj hk hmem

theorem kfold_test_sets_partition_witness :
    3 ∈ kfoldTest 5 2 1 ∧ 3 ∉ kfoldTest 5 2 0 := by
  have h := kfold_test_sets_partition 5 2 (by decide) (by decide)
  exact ⟨by decide, h.1 1 0 (by decide) (by decide) (by decide) 3 (by decide)⟩

/-- C4: when the row counts of `Y`, `T`, `X`, `W` disagree, `fit` fails with
the shape-mismatch error for EVERY choice of nuisance and final models (the
assertion precedes all model fitting, so nothing is partially fit and the
trained state stays absent), and `const_marginal_effect` on the unfitted
state fails with the not-fitted error. -/
theorem fit_shape_mismatch_aborts {φ : Type} (k : ℕ) (Y T X W : NArr)
    (hne : ¬(Y.rows = T.rows ∧ T.rows = X.rows ∧ X.rows = W.rows)) :
    (∀ mt my : FSModel, ∀ mf : FinalModel φ,
      RLearner.fit mt my mf k Y T (some X) (some W) = .error .shapeMismatch) ∧
    (∀ mf : FinalModel φ, ∀ Xq : Option NArr,
      RLearner.const_marginal_effect mf (none : Option φ) Xq = .error .notFitted) := by
  constructor
  · intro mt my mf
    rw [RLearner.fit]
    simp only [Option.getD_some]
    rw [if_pos hne]
  · intro mf Xq
    rfl

theorem fit_shape_mismatch_aborts_witness :
    RLearner.fit echoFS echoFS unitFinal 2 (NArr.ones 100 1) (NArr.ones 99 1)
        (some (NArr.ones 100 1)) (some (NArr.mk [100, 0] [])) =
      .error .shapeMismatch ∧
    RLearner.const_marginal_effect unitFinal (none : Option Unit) none =
      .error .notFitted := by
  have h := fit_shape_mismatch_aborts (φ := Unit) 2 (NArr.ones 100 1) (NArr.ones 99 1)
    (NArr.ones 100 1) (NArr.mk [100, 0] []) (by decide)
  exact ⟨h.1 echoFS echoFS unitFinal, h.2 unitFinal none⟩

/-- C10: when the common row count is smaller than the configured number of
splits, `fit` fails with the splitter's validation error for EVERY choice of
nuisance and final models (the error is raised when the `KFold` generator is
first iterated, before any model's `fit` is invoked), the trained state stays
absent, and prediction on the unfitted state fails with the not-fitted
error. -/
theorem fit_too_few_samples_aborts {φ : Type} (k : ℕ) (Y T X W : NArr)
    (heq : Y.rows = T.rows ∧ T.rows = X.rows ∧ X.rows = W.rows)
    (hnk : Y.rows < k) :
    (∀ mt my : FSModel, ∀ mf : FinalModel φ,
      RLearner.fit mt my mf k Y T (some X) (some W) = .error .invalidSplit) ∧
    (∀ mf : FinalModel φ, ∀ Xq : Option NArr,
      RLearner.const_marginal_effect mf (none : Option φ) Xq = .error .notFitted) := by
  constructor
  · intro mt my mf
    rw [RLearner.fit]
    simp only [Option.getD_some]
    rw [if_neg (not_not_intro heq), if_pos (Or.inr hnk)]
  · intro mf Xq
    rfl

theorem fit_too_few_samples_aborts_witness :
    RLearner.fit echoFS echoFS unitFinal 3 (NArr.ones 2 1) (NArr.ones 2 1)
        (some (NArr.ones 2 1)) (some (NArr.mk [2, 0] [])) =
      .error .invalidSplit ∧
    RLearner.const_marginal_effect unitFinal (none : Option Unit) (some (NArr.ones 1 1)) =
      .error .notFitted := by
  have h := fit_too_few_samples_aborts (φ := Unit) 3 (NArr.ones 2 1) (NArr.ones 2 1)
    (NArr.ones 2 1) (NArr.mk [2, 0] []) (by decide) (by decide)
  exact ⟨h.1 echoFS echoFS unitFinal, h.2 unitFinal (some (NArr.ones 1 1))⟩

/-- C6: the sparse combination policy applies to the outcome nuisance wrapper
only.  With `sparseLinear` enabled (the sparse-linear configuration), the
outcome wrapper's design is the cross product of `[X, W]` with
`[1, featurize(X), W]`, while the treatment wrapper uses the dense design
`featurize(X) ++ W`; with `sparseLinear` disabled both wrappers use the dense
design. -/
theorem sparse_combine_policy (featurize : NArr → NArr) (X W : NArr) :
    SparseLinearDMLCateEstimator.init.model_y.combine
        SparseLinearDMLCateEstimator.init.sparseLinear featurize X W =
      cross_product (NArr.hstack X W)
        (NArr.hstack (NArr.hstack (NArr.ones (NArr.hstack X W).rows 1) (featurize X)) W) ∧
    SparseLinearDMLCateEstimator.init.model_t.combine
        SparseLinearDMLCateEstimator.init.sparseLinear featurize X W =
      NArr.hstack (featurize X) W ∧
    DMLCateEstimator.init.model_y.combine
        DMLCateEstimator.init.sparseLinear featurize X W =
      NArr.hstack (featurize X) W ∧
    DMLCateEstimator.init.model_t.combine
        DMLCateEstimator.init.sparseLinear featurize X W =
      NArr.hstack (featurize X) W :=
  ⟨rfl, rfl, rfl, rfl⟩

/-- C7 (the code violates the caching contract): the source installs
`defaultdict(lambda d_x: ...)` — a ONE-argument default factory — but
`defaultdict` invokes its factory with zero arguments on a missing key, so
the very first `fit_transform` call raises `TypeError` for every input,
every draw function and every feature map: no projection parameters are ever
drawn, cached or reused.  (`defaultdict` is moreover never imported in
`dml.py`, so in the source even constructing `RandomFeatures` raises
`NameError`.) -/
theorem kernel_featurizer_first_call_fails (drawOmega drawBias : ℕ → NArr)
    (featureMap : NArr → NArr → NArr → NArr) (X : NArr) :
    RandomFeatures.fit_transform featureMap (RandomFeatures.init drawOmega drawBias) X =
      .error .typeError := rfl

theorem narrEq {a b : NArr} (h1 : a.shape = b.shape) (h2 : a.data = b.data) :
    a = b := by
  cases a
  cases b
  simp_all

/-- C8: for a fitted estimator, `coef_` returns the wrapped final model's
coefficients reshaped to `d_y ++ d_t ++ [feature_width]` (an axis is absent
exactly when the corresponding residual was a vector at fit time, since
`_d_y`/`_d_t` are then the empty trailing shape); when the wrapped final
model exposes no coefficients, the access fails with the
unsupported-operation condition. -/
theorem coef_reshape_or_unsupported {χ : Type} (innerCoef : χ → Option NArr)
    (st : FinalFitted χ) (f : ℕ)
    (hpos : 0 < (st.d_y ++ st.d_t).prod) :
    (innerCoef st.inner = none →
      DMLCateEstimatorBase.coef_ innerCoef st = .error .unsupportedOp) ∧
    (∀ c, innerCoef st.inner = some c →
      c.data.length = (st.d_y ++ st.d_t).prod * f →
      ∃ r, DMLCateEstimatorBase.coef_ innerCoef st = .ok r ∧
        r.shape = st.d_y ++ (st.d_t ++ [f]) ∧ r.data = c.data) := by
  constructor
  · intro h
    simp only [DMLCateEstimatorBase.coef_, FinalWrapper.coef_, h]
  · intro c hc hlen
    refine ⟨c.reshape (((st.d_y ++ st.d_t).map fun d : ℕ => (d : ℤ)) ++ [-1]),
      by simp only [DMLCateEstimatorBase.coef_, FinalWrapper.coef_, hc], ?_, rfl⟩
    show NArr.resolveShape c.data.length
      (((st.d_y ++ st.d_t).map fun d : ℕ => (d : ℤ)) ++ [-1]) = _
    have h2 := resolveShape_concat c.data.length (st.d_y ++ st.d_t) [] f
      (by simpa using hpos) (by rw [hlen, List.prod_nil, mul_one])
    simp only [List.map_nil] at h2
    rw [h2, List.append_assoc]

theorem coef_reshape_or_unsupported_witness :
    DMLCateEstimatorBase.coef_ (fun _ : Unit => (none : Option NArr))
        (⟨[3], [2], ()⟩ : FinalFitted Unit) = .error .unsupportedOp ∧
    DMLCateEstimatorBase.coef_
        (fun _ : Unit => some (NArr.mk [6, 4] (List.replicate 24 0)))
        (⟨[3], [2], ()⟩ : FinalFitted Unit) =
      .ok (NArr.mk [2, 3, 4] (List.replicate 24 0)) := by
  have h1 := (coef_reshape_or_unsupported (fun _ : Unit => (none : Option NArr))
    (⟨[3], [2], ()⟩ : FinalFitted Unit) 4 (by decide)).1 rfl
  have h2 := (coef_reshape_or_unsupported
    (fun _ : Unit => some (NArr.mk [6, 4] (List.replicate 24 0)))
    (⟨[3], [2], ()⟩ : FinalFitted Unit) 4 (by decide)).2
    (NArr.mk [6, 4] (List.replicate 24 0)) rfl (by decide)
  obtain ⟨r, hr, hshape, hdata⟩ := h2
  refine ⟨h1, ?_⟩
  rw [hr, narrEq (a := r) (b := NArr.mk [2, 3, 4] (List.replicate 24 0))
    (by rw [hshape]; rfl) hdata]

/-- C1: in a successful `fit`, every sample index `i` lies in exactly one
test fold, and the residual arrays hold, at position `i`, exactly the pair
(target row of `i` minus the prediction, at `i`'s position within its test
fold, of the nuisance model fitted on that fold's training rows) — for both
the treatment and the outcome target — where `i` itself is not among the
training rows of its fold (out-of-fold property).  The nuisance models are
arbitrary subject to the batch-prediction length contract (one prediction
per test row). -/
theorem fit_residuals_out_of_fold (mt my : FSModel) (n k : ℕ)
    (hk : 0 < k) (hkn : k ≤ n)
    (Trows Yrows Xrows Wrows initT initY : List (List ℚ))
    (hIT : initT.length = n) (hIY : initY.length = n)
    (hmt : ∀ a b c x w, ((mt.fit a b c) x w).length = x.length)
    (hmy : ∀ a b c x w, ((my.fit a b c) x w).length = x.length)
    (i : ℕ) (hi : i < n) :
    (∃! j, j < k ∧ i ∈ kfoldTest n k j) ∧
    (∀ j, j < k → i ∈ kfoldTest n k j →
      i ∉ kfoldTrain n k j ∧
      (foldResiduals mt (kfoldFolds n k) Trows Xrows Wrows initT).getD i [] =
        rowSub (Trows.getD i [])
          ((mt.fit (select (kfoldTrain n k j) Xrows) (select (kfoldTrain n k j) Wrows)
              (select (kfoldTrain n k j) Trows)
            (select (kfoldTest n k j) Xrows) (select (kfoldTest n k j) Wrows)).getD
            (i - kfoldStart n k j) []) ∧
      (foldResiduals my (kfoldFolds n k) Yrows Xrows Wrows initY).getD i [] =
        rowSub (Yrows.getD i [])
          ((my.fit (select (kfoldTrain n k j) Xrows) (select (kfoldTrain n k j) Wrows)
              (select (kfoldTrain n k j) Yrows)
            (select (kfoldTest n k j) Xrows) (select (kfoldTest n k j) Wrows)).getD
            (i - kfoldStart n k j) [])) := by
  constructor
  · obtain ⟨j, hj, hmem⟩ := kfold_cover n k i hk hi
    refine ⟨j, ⟨hj, hmem⟩, ?_⟩
    intro j2 h2
    by_contra hne
    exact kfold_disjoint n k hne h2.2 hmem
  · intro j hj hmem
    refine ⟨fun htr => ((mem_kfoldTrain n k j i).1 htr).2 hmem, ?_, ?_⟩
    · exact foldResiduals_kfold mt n k hk Trows Xrows Wrows initT hIT hmt hj hmem
    · exact foldResiduals_kfold my n k hk Yrows Xrows Wrows initY hIY hmy hj hmem

theorem fit_residuals_out_of_fold_witness :
    1 ∉ kfoldTrain 4 2 0 ∧
    (foldResiduals echoFS (kfoldFolds 4 2)
        [[10], [20], [30], [40]] [[5], [6], [7], [8]] [[], [], [], []]
        [[0], [0], [0], [0]]).getD 1 [] =
      rowSub ([[10], [20], [30], [40]].getD 1 [])
        ((echoFS.fit (select (kfoldTrain 4 2 0) [[5], [6], [7], [8]])
            (select (kfoldTrain 4 2 0) [[], [], [], []])
            (select (kfoldTrain 4 2 0) [[10], [20], [30], [40]])
          (select (kfoldTest 4 2 0) [[5], [6], [7], [8]])
          (select (kfoldTest 4 2 0) [[], [], [], []])).getD
          (1 - kfoldStart 4 2 0) []) ∧
    (foldResiduals echoFS (kfoldFolds 4 2)
        [[1], [2], [3], [4]] [[5], [6], [7], [8]] [[], [], [], []]
        [[0], [0], [0], [0]]).getD 1 [] =
      rowSub ([[1], [2], [3], [4]].getD 1 [])
        ((echoFS.fit (select (kfoldTrain 4 2 0) [[5], [6], [7], [8]])
            (select (kfoldTrain 4 2 0) [[], [], [], []])
            (select (kfoldTrain 4 2 0) [[1], [2], [3], [4]])
          (select (kfoldTest 4 2 0) [[5], [6], [7], [8]])
          (select (kfoldTest 4 2 0) [[], [], [], []])).getD
          (1 - kfoldStart 4 2 0) []) :=
  (fit_residuals_out_of_fold echoFS echoFS 4 2 (by decide) (by decide)
    [[10], [20], [30], [40]] [[1], [2], [3], [4]] [[5], [6], [7], [8]]
    [[], [], [], []] [[0], [0], [0], [0]] [[0], [0], [0], [0]]
    (by decide) (by decide) (fun _ _ _ _ _ => rfl) (fun _ _ _ _ _ => rfl)
    1 (by decide)).2 0 (by decide) (by decide)

/-- C9: with a deterministic, idempotent featurizer and a deterministic
wrapped final model, a second `const_marginal_effect` call with the identical
argument returns the identical output and leaves every piece of state where
the first call left it (the featurizer state is a fixpoint after one call,
and the trained state `st` and wrapped model are read-only throughout). -/
theorem const_marginal_effect_idempotent {σ χ : Type} (feat : Featurizer σ)
    (innerPred : χ → NArr → NArr) (st : FinalFitted χ) (s : σ) (Xopt : Option NArr)
    (hidem : ∀ s2 X2, feat.fit_transform (feat.fit_transform s2 X2).1 X2 =
      feat.fit_transform s2 X2)
    (s1 : σ) (out1 : NArr)
    (hfirst : RLearner.const_marginal_effectS feat innerPred (some st) s Xopt =
      .ok (s1, out1)) :
    RLearner.const_marginal_effectS feat innerPred (some st) s1 Xopt =
      .ok (s1, out1) := by
  have h1 : FinalWrapper.predictS feat innerPred st s (Xopt.getD (NArr.ones 1 1)) =
      (s1, out1) := by
    have := hfirst
    rw [RLearner.const_marginal_effectS] at this
    exact Except.ok.inj this
  rw [RLearner.const_marginal_effectS]
  rw [FinalWrapper.predictS] at h1 ⊢
  have hs1 : (feat.fit_transform s (Xopt.getD (NArr.ones 1 1))).1 = s1 := by
    have := congrArg Prod.fst h1
    simpa using this
  have h2 : feat.fit_transform s1 (Xopt.getD (NArr.ones 1 1)) =
      feat.fit_transform s (Xopt.getD (NArr.ones 1 1)) := by
    rw [← hs1]
    exact hidem s (Xopt.getD (NArr.ones 1 1))
  rw [h2]
  exact congrArg Except.ok h1

theorem const_marginal_effect_idempotent_witness :
    RLearner.const_marginal_effectS (⟨fun s X => (s, X)⟩ : Featurizer Unit)
        (fun _ Z => Z) (some (⟨[], [], ()⟩ : FinalFitted Unit)) () none =
      .ok ((), FinalWrapper.predictCore (fun Z => Z) [] [] (NArr.ones 1 1) 1) :=
  const_marginal_effect_idempotent (⟨fun s X => (s, X)⟩ : Featurizer Unit)
    (fun _ Z => Z) (⟨[], [], ()⟩ : FinalFitted Unit) () none
    (fun _ _ => rfl) ()
    (FinalWrapper.predictCore (fun Z => Z) [] [] (NArr.ones 1 1) 1) rfl

theorem resolveShape_neg1_two (total a b q : ℕ) (ha : 0 < a) (hb : 0 < b)
    (htot : total = a * b * q) :
    NArr.resolveShape total [-1, (a : ℤ), (b : ℤ)] = [q, a, b] := by
  have h := resolveShape_concat total [] [a, b] q
    (by simpa using Nat.mul_pos ha (Nat.mul_pos hb Nat.one_pos))
    (by rw [htot]; simp)
  simpa using h

theorem resolveShape_neg1_one (total a q : ℕ) (ha : 0 < a) (htot : total = a * q) :
    NArr.resolveShape total [-1, (a : ℤ)] = [q, a] := by
  have h := resolveShape_concat total [] [a] q (by simpa using ha)
    (by rw [htot]; simp)
  simpa using h

theorem resolveShape_neg1_none (total q : ℕ) (htot : total = q) :
    NArr.resolveShape total [-1] = [q] := by
  have h := resolveShape_concat total [] [] q (by simp) (by rw [htot]; simp)
  simpa using h

theorem resolveShape_one_neg1 (total a q : ℕ) (ha : 0 < a) (htot : total = a * q) :
    NArr.resolveShape total [(a : ℤ), -1] = [a, q] := by
  have h := resolveShape_concat total [a] [] q (by simpa using ha)
    (by rw [htot]; simp)
  simpa using h

/-- The shape of `FinalWrapper.predict` over an arbitrary fitted record. -/
theorem predict_shape_aux {χ : Type} (featurize : NArr → NArr)
    (innerPred : χ → NArr → NArr) (st : FinalFitted χ) (X : NArr) (m : ℕ)
    (hXrows : X.rows = m)
    (hdt : st.d_t = [] ∨ ∃ dt, 0 < dt ∧ st.d_t = [dt])
    (hdy : st.d_y = [] ∨ ∃ dy, 0 < dy ∧ st.d_y = [dy])
    (hwf : (innerPred st.inner (FinalWrapper.designXT st.d_t (featurize X) m)).wf)
    (hshape : (innerPred st.inner (FinalWrapper.designXT st.d_t (featurize X) m)).shape =
      (st.d_t.headD 1 * m) :: st.d_y) :
    (FinalWrapper.predict featurize innerPred st X).shape = m :: (st.d_y ++ st.d_t) := by
  obtain ⟨dtl, dyl, inner⟩ := st
  simp only at hdt hdy hwf hshape ⊢
  rw [NArr.wf] at hwf
  rw [FinalWrapper.predict, hXrows]
  rcases hdt with hdt0 | ⟨dt, hdtpos, hdt0⟩ <;> subst hdt0 <;>
    rcases hdy with hdy0 | ⟨dy, hdypos, hdy0⟩ <;> subst hdy0
  · -- d_t = [], d_y = []
    rw [hshape] at hwf
    simp only [FinalWrapper.predictCore, List.map_nil, List.append_nil, List.nil_append]
    rw [if_neg (by simp)]
    show NArr.resolveShape _ _ = _
    exact resolveShape_neg1_none _ m (by rw [hwf]; simp)
  · -- d_t = [], d_y = [dy]
    rw [hshape] at hwf
    simp only [FinalWrapper.predictCore, List.map_cons, List.map_nil,
      List.append_nil, List.nil_append]
    rw [if_neg (by simp)]
    show NArr.resolveShape _ _ = _
    exact resolveShape_neg1_one _ dy m hdypos (by rw [hwf]; simp; ring)
  · -- d_t = [dt], d_y = []
    rw [hshape] at hwf
    simp only [FinalWrapper.predictCore, List.map_cons, List.map_nil,
      List.append_nil, List.nil_append, List.cons_append]
    rw [if_neg (by simp)]
    show NArr.resolveShape _ _ = _
    exact resolveShape_neg1_one _ dt m hdtpos (by rw [hwf]; simp [List.headD])
  · -- d_t = [dt], d_y = [dy]
    rw [hshape] at hwf
    simp only [FinalWrapper.predictCore, List.map_cons, List.map_nil,
      List.append_nil, List.nil_append, List.cons_append]
    rw [if_pos (by simp : (([dt] : List ℕ) ≠ [] ∧ ([dy] : List ℕ) ≠ []))]
    have heff : ((innerPred inner
        (FinalWrapper.designXT [dt] (featurize X) m)).reshape
          [-1, (dt : ℤ), (dy : ℤ)]).shape = [m, dt, dy] := by
      show NArr.resolveShape _ _ = _
      exact resolveShape_neg1_two _ dt dy m hdtpos hdypos
        (by rw [hwf]; simp [List.headD]; ring)
    simp only [NArr.transpose021, heff]
    rfl

/-- C2: for a final wrapper fitted on residuals `T_res`, `Y_res` (with `X` the
fit-time feature matrix), `const_marginal_effect` on a query with `m` rows
returns shape `m :: shape(Y_res)[1:] ++ shape(T_res)[1:]` — `(m, d_y, d_t)`
when both residuals were matrices at fit time, with the corresponding axis
collapsed (down to `(m, d_t)`, `(m, d_y)` or `(m,)`) when `T` or `Y` was a
vector, regardless of the query input's shape.  The wrapped final model obeys
the sklearn prediction contract: its output on the synthetic design is a
well-formed array with one row per design row and trailing shape
`shape(Y_res)[1:]`. -/
theorem const_marginal_effect_shape {χ : Type} (featurize : NArr → NArr)
    (innerFit : NArr → NArr → χ) (innerPred : χ → NArr → NArr)
    (Xfit Tres Yres X : NArr) (m : ℕ) (hXrows : X.rows = m)
    (hdt : Tres.shape.drop 1 = [] ∨ ∃ dt, 0 < dt ∧ Tres.shape.drop 1 = [dt])
    (hdy : Yres.shape.drop 1 = [] ∨ ∃ dy, 0 < dy ∧ Yres.shape.drop 1 = [dy])
    (hwf : (innerPred (FinalWrapper.fit featurize innerFit Xfit Tres Yres).inner
      (FinalWrapper.designXT (Tres.shape.drop 1) (featurize X) m)).wf)
    (hshape : (innerPred (FinalWrapper.fit featurize innerFit Xfit Tres Yres).inner
        (FinalWrapper.designXT (Tres.shape.drop 1) (featurize X) m)).shape =
      ((Tres.shape.drop 1).headD 1 * m) :: Yres.shape.drop 1) :
    (FinalWrapper.predict featurize innerPred
        (FinalWrapper.fit featurize innerFit Xfit Tres Yres) X).shape =
      m :: (Yres.shape.drop 1 ++ Tres.shape.drop 1) :=
  predict_shape_aux featurize innerPred
    (FinalWrapper.fit featurize innerFit Xfit Tres Yres) X m hXrows hdt hdy hwf hshape

theorem const_marginal_effect_shape_witness :
    (FinalWrapper.predict (fun _ => NArr.ones 2 1)
      (fun _ _ => NArr.mk [6, 2] (List.replicate 12 0))
      (FinalWrapper.fit (fun _ => NArr.ones 2 1) (fun _ _ => ())
        (NArr.ones 5 1) (NArr.mk [5, 3] (List.replicate 15 0))
        (NArr.mk [5, 2] (List.replicate 10 0)))
      (NArr.ones 2 1)).shape = [2, 2, 3] :=
  const_marginal_effect_shape (χ := Unit) (fun _ => NArr.ones 2 1) (fun _ _ => ())
    (fun _ _ => NArr.mk [6, 2] (List.replicate 12 0))
    (NArr.ones 5 1) (NArr.mk [5, 3] (List.replicate 15 0))
    (NArr.mk [5, 2] (List.replicate 10 0))
    (NArr.ones 2 1) 2 rfl (Or.inr ⟨3, by decide, rfl⟩) (Or.inr ⟨2, by decide, rfl⟩)
    (by decide) (by decide)

theorem designXT_shape (F : NArr) (m f dt : ℕ) (hdt : 0 < dt) (hf : 0 < f)
    (hm : 0 < m) (hF : F.shape = [m, f]) :
    (FinalWrapper.designXT [dt] F m).shape = [dt * m, dt * f] := by
  have hfe : ((NArr.eye dt).reshape [1, -1]).shape = [1, dt * dt] := by
    show NArr.resolveShape (NArr.eye dt).data.length [1, -1] = _
    have he : (NArr.eye dt).data.length = dt * dt := rangeMap_length _ _
    rw [he]
    exact_mod_cast resolveShape_one_neg1 (dt * dt) 1 (dt * dt) Nat.one_pos (by ring)
  have hlen : (NArr.kron ((NArr.eye dt).reshape [1, -1]) F).data.length =
      (1 * m) * ((dt * dt) * f) := by
    simp only [NArr.kron, hfe, hF, rangeMap_length]
    rfl
  show NArr.resolveShape
    (NArr.kron ((NArr.eye dt).reshape [1, -1]) F).data.length _ = _
  rw [hlen]
  exact_mod_cast resolveShape_one_neg1 ((1 * m) * ((dt * dt) * f)) (dt * m) (dt * f)
    (Nat.mul_pos hdt hm) (by ring)

theorem designXT_getRow (F : NArr) (m f dt : ℕ) (hdt : 0 < dt) (hf : 0 < f)
    (hF : F.shape = [m, f]) {i j : ℕ} (hi : i < m) (hj : j < dt) :
    (FinalWrapper.designXT [dt] F m).getRow (i * dt + j) = naiveDesignRow F dt f i j := by
  have hm : 0 < m := Nat.pos_of_ne_zero (by omega)
  have hfe : ((NArr.eye dt).reshape [1, -1]).shape = [1, dt * dt] := by
    show NArr.resolveShape (NArr.eye dt).data.length [1, -1] = _
    have he : (NArr.eye dt).data.length = dt * dt := rangeMap_length _ _
    rw [he]
    exact_mod_cast resolveShape_one_neg1 (dt * dt) 1 (dt * dt) Nat.one_pos (by ring)
  have hrw : (FinalWrapper.designXT [dt] F m).rowWidth = dt * f := by
    rw [NArr.rowWidth, designXT_shape F m f dt hdt hf hm hF]
    simp
  rw [NArr.getRow, hrw, naiveDesignRow]
  apply List.map_congr_left
  intro c hc
  rw [List.mem_range] at hc
  -- arithmetic facts about the flat position
  have hcf : c / f < dt := (Nat.div_lt_iff_lt_mul hf).2 hc
  have hCpos : 0 < (dt * dt) * f := by positivity
  have hJlt : j * (dt * f) + c < (dt * dt) * f := by
    have h1 : j * (dt * f) + c < (j + 1) * (dt * f) := by
      rw [Nat.succ_mul]
      omega
    have h2 : (j + 1) * (dt * f) ≤ dt * (dt * f) := Nat.mul_le_mul_right _ hj
    calc j * (dt * f) + c < (j + 1) * (dt * f) := h1
      _ ≤ dt * (dt * f) := h2
      _ = (dt * dt) * f := by ring
  have hp_eq : (i * dt + j) * (dt * f) + c = (j * (dt * f) + c) + i * ((dt * dt) * f) := by
    ring
  have hpN : (i * dt + j) * (dt * f) + c < (1 * m) * ((dt * dt) * f) := by
    rw [hp_eq]
    have h1 : (j * (dt * f) + c) + i * ((dt * dt) * f) < (i + 1) * ((dt * dt) * f) := by
      rw [Nat.succ_mul]
      omega
    have h2 : (i + 1) * ((dt * dt) * f) ≤ m * ((dt * dt) * f) := Nat.mul_le_mul_right _ hi
    calc (j * (dt * f) + c) + i * ((dt * dt) * f) < (i + 1) * ((dt * dt) * f) := h1
      _ ≤ m * ((dt * dt) * f) := h2
      _ = (1 * m) * ((dt * dt) * f) := by ring
  have hI : ((i * dt + j) * (dt * f) + c) / ((dt * dt) * f) = i := by
    rw [hp_eq, Nat.add_mul_div_right _ _ hCpos, Nat.div_eq_of_lt hJlt, Nat.zero_add]
  have hJ : ((i * dt + j) * (dt * f) + c) % ((dt * dt) * f) = j * (dt * f) + c := by
    rw [hp_eq, Nat.add_mul_mod_self_right, Nat.mod_eq_of_lt hJlt]
  have hJdiv : (j * (dt * f) + c) / f = j * dt + c / f := by
    rw [show j * (dt * f) + c = c + (j * dt) * f by ring,
      Nat.add_mul_div_right _ _ hf, Nat.add_comm]
  have hJmod : (j * (dt * f) + c) % f = c % f := by
    rw [show j * (dt * f) + c = c + (j * dt) * f by ring, Nat.add_mul_mod_self_right]
  have heyelt : j * dt + c / f < dt * dt := by
    have h1 : j * dt + c / f < (j + 1) * dt := by
      rw [Nat.succ_mul]
      omega
    have h2 : (j + 1) * dt ≤ dt * dt := Nat.mul_le_mul_right _ hj
    omega
  have heyediv : (j * dt + c / f) / dt = j := by
    rw [show j * dt + c / f = c / f + j * dt by ring,
      Nat.add_mul_div_right _ _ hdt, Nat.div_eq_of_lt hcf, Nat.zero_add]
  have heyemod : (j * dt + c / f) % dt = c / f := by
    rw [show j * dt + c / f = c / f + j * dt by ring,
      Nat.add_mul_mod_self_right, Nat.mod_eq_of_lt hcf]
  -- evaluate the kron entry
  show (NArr.kron ((NArr.eye dt).reshape [1, -1]) F).data.getD
    ((i * dt + j) * (dt * f) + c) 0 = _
  simp only [NArr.kron, hfe, hF]
  rw [show (([1, dt * dt] : List ℕ).getD 0 1 * ([m, f] : List ℕ).getD 0 1) *
      (([1, dt * dt] : List ℕ).getD 1 1 * ([m, f] : List ℕ).getD 1 1) =
      (1 * m) * ((dt * dt) * f) from rfl]
  rw [rangeMap_getD _ _ _ hpN]
  rw [show (([1, dt * dt] : List ℕ).getD 1 1 * ([m, f] : List ℕ).getD 1 1) =
      (dt * dt) * f from rfl]
  rw [show ([m, f] : List ℕ).getD 0 1 = m from rfl,
    show ([m, f] : List ℕ).getD 1 1 = f from rfl]
  rw [hI, hJ, hJdiv, hJmod, Nat.div_eq_of_lt hi, Nat.mod_eq_of_lt hi]
  -- the flat-eye factor
  have hfeval : ((NArr.eye dt).reshape [1, -1]).get2 0 (j * dt + c / f) =
      if c / f = j then 1 else 0 := by
    rw [NArr.get2, hfe]
    show (NArr.eye dt).data.getD (0 * (dt * dt) + (j * dt + c / f)) 0 = _
    rw [Nat.zero_mul, Nat.zero_add]
    show ((List.range (dt * dt)).map fun p =>
      if p / dt = p % dt then (1 : ℚ) else 0).getD (j * dt + c / f) 0 = _
    rw [rangeMap_getD _ _ _ heyelt, heyediv, heyemod]
    by_cases hcase : c / f = j
    · rw [if_pos hcase.symm, if_pos hcase]
    · rw [if_neg (fun h2 => hcase h2.symm), if_neg hcase]
  rw [hfeval]
  by_cases hcase : c / f = j
  · rw [if_pos hcase, if_pos hcase, one_mul]
  · rw [if_neg hcase, if_neg hcase, zero_mul]

theorem naiveRow_cross_product (F : NArr) (m f dt : ℕ) (hf : 0 < f) (hdt : 0 < dt)
    (hF : F.shape = [m, f]) {i j : ℕ} (hj : j < dt) :
    naiveDesignRow F dt f i j =
      (cross_product (NArr.mk [1, f] (F.getRow i)) (unitRow dt j)).getRow 0 := by
  have hFrw : F.rowWidth = f := by
    rw [NArr.rowWidth, hF]
    simp
  have hrw : (cross_product (NArr.mk [1, f] (F.getRow i)) (unitRow dt j)).rowWidth =
      f * dt := by
    rw [NArr.rowWidth]
    show ([1, f * dt].drop 1).prod = f * dt
    simp
  rw [NArr.getRow, hrw, naiveDesignRow, Nat.mul_comm f dt]
  apply List.map_congr_left
  intro c hc
  rw [List.mem_range] at hc
  have hcf : c / f < dt := (Nat.div_lt_iff_lt_mul hf).2 hc
  have hcm : c % f < f := Nat.mod_lt _ hf
  show _ = (cross_product (NArr.mk [1, f] (F.getRow i)) (unitRow dt j)).data.getD
    (0 * (dt * f) + c) 0
  rw [Nat.zero_mul, Nat.zero_add]
  show _ = ((List.range (1 * (f * dt))).map fun p =>
    (unitRow dt j).get2 (p / (f * dt)) ((p % (f * dt)) / f) *
    (NArr.mk [1, f] (F.getRow i)).get2 (p / (f * dt)) ((p % (f * dt)) % f)).getD c 0
  rw [rangeMap_getD _ _ _
    (by rw [Nat.one_mul, Nat.mul_comm f dt]; exact hc : c < 1 * (f * dt))]
  rw [Nat.div_eq_of_lt (by rw [Nat.mul_comm f dt]; exact hc : c < f * dt),
    Nat.mod_eq_of_lt (by rw [Nat.mul_comm f dt]; exact hc : c < f * dt)]
  have hB : (unitRow dt j).get2 0 (c / f) = if c / f = j then 1 else 0 := by
    show ((List.range dt).map fun t => if t = j then (1 : ℚ) else 0).getD
      (0 * dt + (c / f)) 0 = _
    rw [Nat.zero_mul, Nat.zero_add, rangeMap_getD _ _ _ hcf]
  have hA : (NArr.mk [1, f] (F.getRow i)).get2 0 (c % f) = F.get2 i (c % f) := by
    show (F.getRow i).getD (0 * f + (c % f)) 0 = _
    rw [Nat.zero_mul, Nat.zero_add, NArr.getRow, hFrw, rangeMap_getD _ _ _ hcm]
    rw [NArr.get2, hF]
    rfl
  rw [hB, hA]
  by_cases hcase : c / f = j
  · rw [if_pos hcase, if_pos hcase, one_mul]
  · rw [if_neg hcase, if_neg hcase, zero_mul]

/-- C3: the batched reconstruction in `FinalWrapper.predict` — flattening the
`dt × dt` identity row-wise, Kronecker-multiplying with the featurized query
matrix `F` and reshaping to `(m·dt, dt·f)` — is row-for-row the naive
construction: row `i·dt + j` is `F`'s row `i` placed in treatment dimension
`j`'s coefficient block, which is exactly the design row `fit` would build
via `cross_product` of that feature row with the unit treatment-residual
vector `e_j`.  Consequently, for a row-wise wrapped model, the prediction at
flat row `(i, j)` (the `[i, j]` slice of the reshaped effect tensor, whose
reshape leaves the flat prediction data unchanged) is the model's prediction
on that single synthetic row. -/
theorem kron_design_equiv (F : NArr) (m f dt : ℕ) (hdt : 0 < dt) (hf : 0 < f)
    (hF : F.shape = [m, f]) (i j : ℕ) (hi : i < m) (hj : j < dt) :
    (FinalWrapper.designXT [dt] F m).getRow (i * dt + j) = naiveDesignRow F dt f i j ∧
    naiveDesignRow F dt f i j =
      (cross_product (NArr.mk [1, f] (F.getRow i)) (unitRow dt j)).getRow 0 ∧
    (∀ d_y : List ℕ, ((P : NArr → NArr) → ∀ g : List ℚ → List ℚ,
      (∀ r, (P (FinalWrapper.designXT [dt] F m)).getRow r =
        g ((FinalWrapper.designXT [dt] F m).getRow r)) →
      ((P (FinalWrapper.designXT [dt] F m)).reshape
          ([-1] ++ [dt].map (fun d : ℕ => (d : ℤ)) ++ d_y.map (fun d : ℕ => (d : ℤ)))).data =
        (P (FinalWrapper.designXT [dt] F m)).data ∧
      (P (FinalWrapper.designXT [dt] F m)).getRow (i * dt + j) =
        g (naiveDesignRow F dt f i j))) := by
  refine ⟨designXT_getRow F m f dt hdt hf hF hi hj,
    naiveRow_cross_product F m f dt hf hdt hF hj, ?_⟩
  intro d_y P g hrowwise
  refine ⟨rfl, ?_⟩
  rw [hrowwise, designXT_getRow F m f dt hdt hf hF hi hj]

theorem kron_design_equiv_witness :
    (FinalWrapper.designXT [2] (NArr.mk [2, 2] [1, 2, 3, 4]) 2).getRow 2 =
      naiveDesignRow (NArr.mk [2, 2] [1, 2, 3, 4]) 2 2 1 0 ∧
    naiveDesignRow (NArr.mk [2, 2] [1, 2, 3, 4]) 2 2 1 0 =
      (cross_product (NArr.mk [1, 2] ((NArr.mk [2, 2] [1, 2, 3, 4]).getRow 1))
        (unitRow 2 0)).getRow 0 := by
  have h := kron_design_equiv (NArr.mk [2, 2] [1, 2, 3, 4]) 2 2 2 (by decide)
    (by decide) rfl 1 0 (by decide) (by decide)
  exact ⟨h.1, h.2.1⟩

/-- On the success path (equal row counts, valid split), `RLearner.fit` fits
the final model on the untouched feature matrix `X` together with the two
pooled residual arrays built by the cross-fitting loop (shaped like `T` and
`Y`), connecting `RLearner.fit` to the per-target loop `foldResiduals`. -/
theorem fit_ok_eq {φ : Type} (mt my : FSModel) (mf : FinalModel φ) (k : ℕ)
    (Y T X W : NArr)
    (heq : Y.rows = T.rows ∧ T.rows = X.rows ∧ X.rows = W.rows)
    (hk : ¬(k < 2 ∨ Y.rows < k)) :
    RLearner.fit mt my mf k Y T (some X) (some W) =
      .ok (mf.fit X
        (NArr.mk T.shape (foldResiduals mt (kfoldFolds Y.rows k) T.toRows X.toRows
          W.toRows (zerosRowsOf T)).flatten)
        (NArr.mk Y.shape (foldResiduals my (kfoldFolds Y.rows k) Y.toRows X.toRows
          W.toRows (zerosRowsOf Y)).flatten)) := by
  rw [RLearner.fit]
  simp only [Option.getD_some]
  rw [if_neg (not_not_intro heq), if_neg hk]

/-- The initial residual array `np.zeros(shape(A))` has one row per sample. -/
theorem zerosRowsOf_length (A : NArr) : (zerosRowsOf A).length = A.rows :=
  rangeMap_length _ _
